import Mathlib

/-!
Verification of the cable_car repository: shallow embedding of the
message codecs (`byte_messages.py`, `json_messages.py`), the transport
(`messenger.py`) and the discovery layer (`broadcast_connector.py`),
with theorems settling the specification claims.

Buffers are modelled as `List Nat` (byte values), Python exceptions as
an explicit `Except` error type, and Python's `json` module as a JSON
value type with a serializer/parser matching `json.loads` on this
program's domain: ints, floats and the `NaN`/`Infinity` constants
(floats carried as their literal text — their IEEE-754 values are never
inspected, only their type), strings with escapes other than surrogate
`\uXXXX` escapes, arrays and objects.
-/

/-- JSON values as produced by Python's `json` module for the payloads
this program handles. -/
inductive Json where
  | null
  | bool (b : Bool)
  | num (n : Int)
  | float (lit : String)
  | str (s : String)
  | arr (items : List Json)
  | obj (fields : List (String × Json))
deriving Repr

mutual

def Json.beq : Json → Json → Bool
  | .null, .null => true
  | .bool a, .bool b => a == b
  | .num a, .num b => a == b
  | .float a, .float b => a == b
  | .str a, .str b => a == b
  | .arr a, .arr b => Json.beqList a b
  | .obj a, .obj b => Json.beqFields a b
  | _, _ => false

def Json.beqList : List Json → List Json → Bool
  | [], [] => true
  | x :: xs, y :: ys => Json.beq x y && Json.beqList xs ys
  | _, _ => false

def Json.beqFields : List (String × Json) → List (String × Json) → Bool
  | [], [] => true
  | (k1, v1) :: xs, (k2, v2) :: ys => k1 == k2 && Json.beq v1 v2 && Json.beqFields xs ys
  | _, _ => false

end

mutual

theorem Json.beq_iff : ∀ (a b : Json), Json.beq a b = true ↔ a = b
  | .null, .null => by simp [Json.beq]
  | .bool a, .bool b => by simp [Json.beq]
  | .num a, .num b => by simp [Json.beq]
  | .float a, .float b => by simp [Json.beq]
  | .str a, .str b => by simp [Json.beq]
  | .arr a, .arr b => by
      simp [Json.beq, Json.beqList_iff a b]
  | .obj a, .obj b => by
      simp [Json.beq, Json.beqFields_iff a b]
  | .null, .bool _ | .null, .num _ | .null, .str _ | .null, .arr _ | .null, .obj _
  | .null, .float _ | .bool _, .float _ | .num _, .float _ | .str _, .float _
  | .arr _, .float _ | .obj _, .float _
  | .float _, .null | .float _, .bool _ | .float _, .num _ | .float _, .str _
  | .float _, .arr _ | .float _, .obj _
  | .bool _, .null | .bool _, .num _ | .bool _, .str _ | .bool _, .arr _ | .bool _, .obj _
  | .num _, .null | .num _, .bool _ | .num _, .str _ | .num _, .arr _ | .num _, .obj _
  | .str _, .null | .str _, .bool _ | .str _, .num _ | .str _, .arr _ | .str _, .obj _
  | .arr _, .null | .arr _, .bool _ | .arr _, .num _ | .arr _, .str _ | .arr _, .obj _
  | .obj _, .null | .obj _, .bool _ | .obj _, .num _ | .obj _, .str _ | .obj _, .arr _ => by
      simp [Json.beq]

theorem Json.beqList_iff : ∀ (xs ys : List Json), Json.beqList xs ys = true ↔ xs = ys
  | [], [] => by simp [Json.beqList]
  | x :: xs, y :: ys => by
      simp [Json.beqList, Json.beq_iff x y, Json.beqList_iff xs ys]
  | [], _ :: _ => by simp [Json.beqList]
  | _ :: _, [] => by simp [Json.beqList]

theorem Json.beqFields_iff :
    ∀ (xs ys : List (String × Json)), Json.beqFields xs ys = true ↔ xs = ys
  | [], [] => by simp [Json.beqFields]
  | (k1, v1) :: xs, (k2, v2) :: ys => by
      simp [Json.beqFields, Json.beq_iff v1 v2, Json.beqFields_iff xs ys, and_assoc]
  | [], _ :: _ => by simp [Json.beqFields]
  | _ :: _, [] => by simp [Json.beqFields]

end

instance : DecidableEq Json := fun a b => decidable_of_iff _ (Json.beq_iff a b)

deriving instance DecidableEq for Except

example : Json.num 3 ≠ Json.null := by decide
example : (Json.arr [.str "a"]) = Json.arr [.str "a"] := by decide

/-- Opening brace character (written via code point to keep it out of string literals). -/
def lbrace : Char := '\x7b'

/-- Closing brace character. -/
def rbrace : Char := '\x7d'

/-- Lower-case hex digit for `\uXXXX` escapes, as Python's `json.dumps` emits. -/
def hexDigitChar (n : Nat) : Char :=
  if n < 10 then Char.ofNat (48 + n) else Char.ofNat (87 + n)

/-- A `\uXXXX` escape sequence. -/
def uEscape (n : Nat) : List Char :=
  ['\\', 'u', hexDigitChar (n / 4096 % 16), hexDigitChar (n / 256 % 16),
   hexDigitChar (n / 16 % 16), hexDigitChar (n % 16)]

/-- Escaping of one character inside a JSON string, following Python's
`json.dumps` with its default `ensure_ascii=True`: the two-character
escapes for quote, backslash and common control characters, `\uXXXX`
for other control and all non-ASCII characters (surrogate pairs above
the BMP), and the character itself otherwise. -/
def escapeChar (c : Char) : List Char :=
  if c = '"' then ['\\', '"']
  else if c = '\\' then ['\\', '\\']
  else if c = '\n' then ['\\', 'n']
  else if c = '\t' then ['\\', 't']
  else if c = '\r' then ['\\', 'r']
  else if c = '\x08' then ['\\', 'b']
  else if c = '\x0c' then ['\\', 'f']
  else if c.toNat < 0x20 ∨ 0x7e < c.toNat then
    if c.toNat < 0x10000 then uEscape c.toNat
    else uEscape (0xd800 + (c.toNat - 0x10000) / 0x400) ++
         uEscape (0xdc00 + (c.toNat - 0x10000) % 0x400)
  else [c]

/-- The body of a serialized JSON string: escaped characters followed by
the closing quote. -/
def escString : List Char → List Char
  | [] => ['"']
  | c :: rest => escapeChar c ++ escString rest

mutual

/-- `json.dumps(·, separators=(',', ':'))`: compact serialization with no
whitespace, as `Message.encoded` in `json_messages.py` uses. -/
def Json.dumps : Json → List Char
  | .null => "null".data
  | .bool true => "true".data
  | .bool false => "false".data
  | .num n => (toString n).data
  | .float lit => lit.data
  | .str s => '"' :: escString s.data
  | .arr l => '[' :: Json.dumpsElems l
  | .obj fs => lbrace :: Json.dumpsFields fs

/-- Array elements joined by `,`, then the closing bracket. -/
def Json.dumpsElems : List Json → List Char
  | [] => [']']
  | [j] => Json.dumps j ++ [']']
  | j :: rest => Json.dumps j ++ ',' :: Json.dumpsElems rest

/-- Object fields `"key":value` joined by `,`, then the closing brace. -/
def Json.dumpsFields : List (String × Json) → List Char
  | [] => [rbrace]
  | [(k, v)] => '"' :: escString k.data ++ ':' :: Json.dumps v ++ [rbrace]
  | (k, v) :: rest => '"' :: escString k.data ++ ':' :: Json.dumps v ++ ',' :: Json.dumpsFields rest

end

/-- JSON insignificant whitespace. -/
def isWsChar (c : Char) : Bool := c = ' ' || c = '\t' || c = '\n' || c = '\r'

/-- Skip insignificant whitespace. -/
def skipWs : List Char → List Char
  | [] => []
  | c :: rest => if isWsChar c then skipWs rest else c :: rest

/-- Hex digit value. -/
def hexVal (c : Char) : Option Nat :=
  if 48 ≤ c.toNat ∧ c.toNat ≤ 57 then some (c.toNat - 48)
  else if 97 ≤ c.toNat ∧ c.toNat ≤ 102 then some (c.toNat - 87)
  else if 65 ≤ c.toNat ∧ c.toNat ≤ 70 then some (c.toNat - 55)
  else none

/-- Parse the rest of a JSON string after the opening quote, accumulating
decoded characters.  Control characters are rejected (Python's strict
mode); `\uXXXX` escapes for surrogate code points are outside the
modelled subset and rejected. -/
def parseStrRest : List Char → List Char → Option (String × List Char)
  | _, [] => none
  | acc, c :: rest =>
    if c = '"' then some (String.mk acc, rest)
    else if c = '\\' then
      match rest with
      | [] => none
      | e :: rest1 =>
        if e = '"' then parseStrRest (acc ++ ['"']) rest1
        else if e = '\\' then parseStrRest (acc ++ ['\\']) rest1
        else if e = '/' then parseStrRest (acc ++ ['/']) rest1
        else if e = 'n' then parseStrRest (acc ++ ['\n']) rest1
        else if e = 't' then parseStrRest (acc ++ ['\t']) rest1
        else if e = 'r' then parseStrRest (acc ++ ['\r']) rest1
        else if e = 'b' then parseStrRest (acc ++ ['\x08']) rest1
        else if e = 'f' then parseStrRest (acc ++ ['\x0c']) rest1
        else if e = 'u' then
          match rest1 with
          | h1 :: h2 :: h3 :: h4 :: rest2 =>
            match hexVal h1, hexVal h2, hexVal h3, hexVal h4 with
            | some a, some b, some c3, some d =>
              let n := a * 4096 + b * 256 + c3 * 16 + d
              if n < 0xd800 ∨ 0xe000 ≤ n then parseStrRest (acc ++ [Char.ofNat n]) rest2
              else none
            | _, _, _, _ => none
          | _ => none
        else none
    else if 0x20 ≤ c.toNat then parseStrRest (acc ++ [c]) rest
    else none

/-- Longest prefix of decimal digits. -/
def digitSpan : List Char → List Char × List Char
  | [] => ([], [])
  | c :: rest =>
    if c.isDigit then
      let (d, r) := digitSpan rest
      (c :: d, r)
    else ([], c :: rest)

/-- Digits to a natural number, most significant first. -/
def digitsToNat (acc : Nat) : List Char → Nat
  | [] => acc
  | c :: rest => digitsToNat (acc * 10 + (c.toNat - 48)) rest

/-- Integer part of a JSON number: `0`, or a nonzero digit followed by
more digits (JSON forbids leading zeros). -/
def parseIntPart : List Char → Option (Nat × List Char)
  | [] => none
  | c :: rest =>
    if c = '0' then some (0, rest)
    else if c.isDigit then
      let (d, r) := digitSpan rest
      some (digitsToNat (c.toNat - 48) d, r)
    else none

/-- The fraction part of a JSON number: `.` followed by at least one
digit, or nothing.  A `.` with no digit makes Python's scanner end the
number before it, after which the stray `.` is a syntax error in every
context, so rejecting the whole number is failure-equivalent. -/
def parseFrac (cs : List Char) : Option (List Char × List Char) :=
  match cs with
  | '.' :: r2 =>
    match digitSpan r2 with
    | ([], _) => none
    | (ds, r3) => some ('.' :: ds, r3)
  | _ => some ([], cs)

/-- The exponent part of a JSON number: `e`/`E`, an optional sign and
at least one digit, or nothing; same failure-equivalence as `parseFrac`. -/
def parseExp (cs : List Char) : Option (List Char × List Char) :=
  match cs with
  | c :: r2 =>
    if c = 'e' ∨ c = 'E' then
      match r2 with
      | s :: r3 =>
        if s = '+' ∨ s = '-' then
          match digitSpan r3 with
          | ([], _) => none
          | (ds, r4) => some (c :: s :: ds, r4)
        else
          match digitSpan r2 with
          | ([], _) => none
          | (ds, r4) => some (c :: ds, r4)
      | [] => none
    else some ([], cs)
  | [] => some ([], [])

/-- Parse a JSON number as Python's `json.loads` does: an optional sign,
an integer part without leading zeros, optional fraction and exponent,
plus the `-Infinity` constant.  A plain integer gives `Json.num`; a
fraction or exponent gives a Python float, carried as `Json.float` with
its literal text (float value semantics are outside the model; nothing
downstream inspects the value, only the type). -/
def parseNumber (cs : List Char) : Option (Json × List Char) :=
  match cs with
  | '-' :: 'I' :: 'n' :: 'f' :: 'i' :: 'n' :: 'i' :: 't' :: 'y' :: r =>
    some (.float "-Infinity", r)
  | _ =>
    let signed : Bool × List Char :=
      match cs with
      | '-' :: rest => (true, rest)
      | _ => (false, cs)
    match parseIntPart signed.2 with
    | none => none
    | some (n, r1) =>
      match parseFrac r1 with
      | none => none
      | some (frac, r2) =>
        match parseExp r2 with
        | none => none
        | some (ex, r3) =>
          if frac.isEmpty ∧ ex.isEmpty then
            some (.num (if signed.1 then -(n : Int) else (n : Int)), r3)
          else
            some (.float (String.mk ((if signed.1 then ['-'] else []) ++
              (toString n).data ++ frac ++ ex)), r3)

mutual

/-- Fuel-bounded recursive-descent parser for one JSON value, modelling
`json.loads` on the subset this program exchanges. -/
def parseVal : Nat → List Char → Option (Json × List Char)
  | 0, _ => none
  | fuel + 1, cs =>
    match skipWs cs with
    | [] => none
    | c :: rest =>
      if c = '"' then
        match parseStrRest [] rest with
        | some (s, r) => some (.str s, r)
        | none => none
      else if c = '[' then
        match skipWs rest with
        | [] => none
        | c2 :: r2 =>
          if c2 = ']' then some (.arr [], r2)
          else
            match parseElems fuel (c2 :: r2) with
            | some (l, r) => some (.arr l, r)
            | none => none
      else if c = lbrace then
        match skipWs rest with
        | [] => none
        | c2 :: r2 =>
          if c2 = rbrace then some (.obj [], r2)
          else
            match parseFields fuel (c2 :: r2) with
            | some (fs, r) => some (.obj fs, r)
            | none => none
      else if c = 'n' then
        match rest with
        | 'u' :: 'l' :: 'l' :: r => some (.null, r)
        | _ => none
      else if c = 't' then
        match rest with
        | 'r' :: 'u' :: 'e' :: r => some (.bool true, r)
        | _ => none
      else if c = 'f' then
        match rest with
        | 'a' :: 'l' :: 's' :: 'e' :: r => some (.bool false, r)
        | _ => none
      else if c = 'N' then
        match rest with
        | 'a' :: 'N' :: r => some (.float "NaN", r)
        | _ => none
      else if c = 'I' then
        match rest with
        | 'n' :: 'f' :: 'i' :: 'n' :: 'i' :: 't' :: 'y' :: r => some (.float "Infinity", r)
        | _ => none
      else if c = '-' || c.isDigit then parseNumber (c :: rest)
      else none

/-- Array elements after the opening bracket (nonempty case). -/
def parseElems : Nat → List Char → Option (List Json × List Char)
  | 0, _ => none
  | fuel + 1, cs =>
    match parseVal fuel cs with
    | none => none
    | some (j, r) =>
      match skipWs r with
      | [] => none
      | c2 :: r2 =>
        if c2 = ',' then
          match parseElems fuel r2 with
          | some (l, r3) => some (j :: l, r3)
          | none => none
        else if c2 = ']' then some ([j], r2)
        else none

/-- Object fields after the opening brace (nonempty case). -/
def parseFields : Nat → List Char → Option (List (String × Json) × List Char)
  | 0, _ => none
  | fuel + 1, cs =>
    match skipWs cs with
    | [] => none
    | c0 :: rest =>
      if c0 = '"' then
        match parseStrRest [] rest with
        | none => none
        | some (k, r) =>
          match skipWs r with
          | [] => none
          | c1 :: r2 =>
            if c1 = ':' then
              match parseVal fuel r2 with
              | none => none
              | some (v, r3) =>
                match skipWs r3 with
                | [] => none
                | c4 :: r4 =>
                  if c4 = ',' then
                    match parseFields fuel r4 with
                    | some (fs, r5) => some ((k, v) :: fs, r5)
                    | none => none
                  else if c4 = rbrace then some ([(k, v)], r4)
                  else none
            else none
      else none

end

/-- `json.loads`: parse one value and require that only whitespace
follows (otherwise Python raises "Extra data", an error the caller
catches).  Any failure is `none`. -/
def jsonLoads (cs : List Char) : Option Json :=
  match parseVal (cs.length + 1) cs with
  | some (j, r) => if skipWs r = [] then some j else none
  | none => none

/-- Decode one UTF-8-encoded code point from the head of a byte
sequence: the character and the remaining bytes.  Strict, as Python's
`bytes.decode('utf-8')`: continuation-byte checks and the standard
exclusion of overlong encodings, surrogates and values above U+10FFFF. -/
def utf8DecodeOne : List Nat → Option (Char × List Nat)
  | [] => none
  | b :: rest =>
    if b < 0x80 then some (Char.ofNat b, rest)
    else if 0xc2 ≤ b ∧ b ≤ 0xdf then
      match rest with
      | c1 :: rest2 =>
        if 0x80 ≤ c1 ∧ c1 ≤ 0xbf then
          some (Char.ofNat ((b - 0xc0) * 64 + (c1 - 0x80)), rest2)
        else none
      | [] => none
    else if 0xe0 ≤ b ∧ b ≤ 0xef then
      match rest with
      | c1 :: c2 :: rest2 =>
        let lo1 := if b = 0xe0 then 0xa0 else 0x80
        let hi1 := if b = 0xed then 0x9f else 0xbf
        if lo1 ≤ c1 ∧ c1 ≤ hi1 ∧ 0x80 ≤ c2 ∧ c2 ≤ 0xbf then
          some (Char.ofNat ((b - 0xe0) * 4096 + (c1 - 0x80) * 64 + (c2 - 0x80)), rest2)
        else none
      | _ => none
    else if 0xf0 ≤ b ∧ b ≤ 0xf4 then
      match rest with
      | c1 :: c2 :: c3 :: rest2 =>
        let lo1 := if b = 0xf0 then 0x90 else 0x80
        let hi1 := if b = 0xf4 then 0x8f else 0xbf
        if lo1 ≤ c1 ∧ c1 ≤ hi1 ∧ 0x80 ≤ c2 ∧ c2 ≤ 0xbf ∧ 0x80 ≤ c3 ∧ c3 ≤ 0xbf then
          some (Char.ofNat
            ((b - 0xf0) * 262144 + (c1 - 0x80) * 4096 + (c2 - 0x80) * 64 + (c3 - 0x80)), rest2)
        else none
      | _ => none
    else none

/-- Fuel-bounded loop decoding a whole byte sequence; every step
consumes at least one byte, so a fuel of the sequence's length
suffices. -/
def decodeUtf8Fuel : Nat → List Nat → Option (List Char)
  | _, [] => some []
  | 0, _ :: _ => none
  | fuel + 1, b :: rest =>
    match utf8DecodeOne (b :: rest) with
    | none => none
    | some (c, rest2) => (decodeUtf8Fuel fuel rest2).map (c :: ·)

/-- Strict UTF-8 decoding of a byte sequence, as Python's
`bytes.decode('utf-8')`. -/
def decodeUtf8 (l : List Nat) : Option (List Char) := decodeUtf8Fuel l.length l

/-- Python exceptions that the modelled code can raise or propagate. -/
inductive PyErr where
  | keyError
  | indexError
  | typeError
  | attributeError
  | unicodeDecodeError
  | unicodeEncodeError
  | valueError
deriving Repr, DecidableEq

/-- A value of the text codec's `Message` class (`json_messages.py`):
its class name together with its `__dict__`, an insertion-ordered
attribute map with JSON-representable values. -/
structure Message where
  name : String
  attrs : List (String × Json)
deriving Repr, DecidableEq

/-- The registry populated by `Message.register_messages()` for the
subclasses defined in `json_messages.py`. -/
def Message.class_defs : List String := ["MsgIdentify", "MsgJoin", "MsgRetry", "MsgQuit"]

/-- Python's `setattr` on the ordered `__dict__`: an existing key keeps
its position and gets the new value; a new key is appended. -/
def setattr (attrs : List (String × Json)) (k : String) (v : Json) : List (String × Json) :=
  if attrs.any (fun kv => kv.1 = k) then
    attrs.map (fun kv => if kv.1 = k then (k, v) else kv)
  else attrs ++ [(k, v)]

/-- `Message.decode_attributes`: `setattr` for every key of the decoded
attribute map, in order. -/
def Message.decode_attributes (m : Message) (fields : List (String × Json)) : Message :=
  { m with attrs := fields.foldl (fun a kv => setattr a kv.1 kv.2) m.attrs }

/-- Instantiating a registered class with no arguments, as
`peel_from_buffer` does.  `MsgIdentify.__init__` fills in the missing
`username`/`hostname` attributes from the environment; those ambient
defaults are passed in as `du`/`dh`.  The other classes start empty. -/
def Message.newInstance (name du dh : String) : Message :=
  if name = "MsgIdentify" then
    ⟨name, [("username", Json.str du), ("hostname", Json.str dh)]⟩
  else ⟨name, []⟩

/-- `Message.encoded`: `json.dumps([className, encoded_attributes()],
separators=(',', ':')).encode() + b"\n"`.  The dumps output is ASCII
(`ensure_ascii`), so encoding is byte-for-byte the character codes. -/
def Message.encoded (m : Message) : List Nat :=
  (Json.dumps (.arr [.str m.name, .obj m.attrs])).map Char.toNat ++ [10]

/-- `Message.peel_from_buffer` (`json_messages.py` lines 47-70): find the
terminator; if absent return `(None, 0)`.  Otherwise try to UTF-8-decode
and JSON-parse the prefix — a failure there is caught, logged and gives
`(None, 0)`.  A successful parse is subscripted as `payload[0]` /
`payload[1]` with Python semantics (errors uncaught): an unregistered
or non-string `payload[0]` raises `KeyError`; the registered case
instantiates the class and applies `decode_attributes(payload[1])`,
whose `.items()` call raises `AttributeError` on a non-dict. -/
def Message.peel_from_buffer (du dh : String) (read_buffer : List Nat) :
    Except PyErr (Option Message × Nat) :=
  match read_buffer.findIdx? (· = 10) with
  | none => .ok (none, 0)
  | some pos =>
    match (decodeUtf8 (read_buffer.take pos)).bind jsonLoads with
    | none => .ok (none, 0)
    | some payload =>
      match payload with
      | .arr [] => .error .indexError
      | .arr (p0 :: prest) =>
        match p0 with
        | .str nm =>
          if nm ∈ Message.class_defs then
            match prest with
            | [] => .error .indexError
            | a1 :: _ =>
              match a1 with
              | .obj fields =>
                .ok (some ((Message.newInstance nm du dh).decode_attributes fields), pos)
              | _ => .error .attributeError
          else .error .keyError
        | .arr _ => .error .typeError
        | .obj _ => .error .typeError
        | _ => .error .keyError
      | .str s =>
        match s.data with
        | [] => .error .indexError
        | c :: crest =>
          if String.mk [c] ∈ Message.class_defs then
            match crest with
            | [] => .error .indexError
            | _ :: _ => .error .attributeError
          else .error .keyError
      | .obj _ => .error .keyError
      | .num _ => .error .typeError
      | .float _ => .error .typeError
      | .bool _ => .error .typeError
      | .null => .error .typeError

/-- A value of the byte codec's message hierarchy (`byte_messages.py`):
`Identify` carries `username`/`hostname`, the rest carry no data. -/
inductive Byte_Message where
  | identify (username hostname : String)
  | join
  | retry
  | quit
deriving Repr, DecidableEq

/-- The class code of each registered `Byte_Message` subclass. -/
def Byte_Message.code : Byte_Message → Nat
  | .identify _ _ => 1
  | .join => 2
  | .retry => 3
  | .quit => 4

/-- The registry `Byte_Message.class_defs` after the module-level
`register()` calls: code 1 constructs `Identify()` (whose `__init__`
fills `username`/`hostname` from the environment defaults `du`/`dh`),
codes 2-4 construct the data-less classes. -/
def Byte_Message.class_defs : List (Nat × (String → String → Byte_Message)) :=
  [(1, fun du dh => .identify du dh),
   (2, fun _ _ => .join),
   (3, fun _ _ => .retry),
   (4, fun _ _ => .quit)]

/-- Python's `str.split(sep)` for a one-character separator (never
returns an empty list; splitting the empty string gives `[""]`). -/
def pySplit (sep : Char) : List Char → List (List Char)
  | [] => [[]]
  | c :: rest =>
    if c = sep then [] :: pySplit sep rest
    else
      match pySplit sep rest with
      | p :: ps => (c :: p) :: ps
      | [] => [[c]]

/-- `Identify.decode_data`: `msg_data.decode().split("@")` unpacked into
`username, hostname` — a `UnicodeDecodeError` or a split of length ≠ 2
propagates. -/
def Byte_Message.identify_decode_data (msg_data : List Nat) : Except PyErr Byte_Message :=
  match decodeUtf8 msg_data with
  | none => .error .unicodeDecodeError
  | some s =>
    match pySplit '@' s with
    | [u, h] => .ok (.identify (String.mk u) (String.mk h))
    | _ => .error .valueError

/-- `Identify.encode`: `"username@hostname".encode('ASCII')` — raises
`UnicodeEncodeError` on any non-ASCII character.  The other classes
inherit the default `encode`, an empty byte string. -/
def Byte_Message.encode : Byte_Message → Except PyErr (List Nat)
  | .identify u h =>
    let s := u.data ++ '@' :: h.data
    if s.all (fun c => c.toNat < 128) then .ok (s.map Char.toNat)
    else .error .unicodeEncodeError
  | _ => .ok []

/-- `Byte_Message.encoded` (`byte_messages.py` lines 50-57): prepend
`[data_len + 2, code]` to the payload; `bytearray` construction raises
`ValueError` when `data_len + 2` exceeds 255. -/
def Byte_Message.encoded (m : Byte_Message) : Except PyErr (List Nat) := do
  let encoded_data ← m.encode
  let data_len := encoded_data.length
  if 255 < data_len + 2 then .error .valueError
  else .ok ((data_len + 2) :: m.code :: encoded_data)

/-- `Byte_Message.peel_from_buffer` (`byte_messages.py` lines 31-47):
if the buffer is nonempty and holds at least `buffer[0]` bytes, read
`buffer[1]` (unguarded — `IndexError` on a 1-byte buffer), look the code
up in the registry (`KeyError` when absent), construct the class, and
when `buffer[0] > 2` pass `buffer[2:]` — the whole remaining buffer —
to `decode_data`.  Returns the message and `buffer[0]`. -/
def Byte_Message.peel_from_buffer (du dh : String) (read_buffer : List Nat) :
    Except PyErr (Option Byte_Message × Nat) :=
  match read_buffer with
  | [] => .ok (none, 0)
  | b0 :: rest =>
    if b0 ≤ read_buffer.length then
      match rest with
      | [] => .error .indexError
      | b1 :: _ =>
        match Byte_Message.class_defs.lookup b1 with
        | none => .error .keyError
        | some ctor =>
          let msg := ctor du dh
          if 2 < b0 then
            match msg with
            | .identify _ _ => do
              let decoded ← Byte_Message.identify_decode_data (read_buffer.drop 2)
              .ok (some decoded, b0)
            | _ => .ok (some msg, b0)
          else .ok (some msg, b0)
    else .ok (none, 0)

/-- `Messenger.get` (`messenger.py` lines 122-128), generic in the
codec's `peel_from_buffer`: on a nonzero `byte_len` the read buffer
loses `byte_len + 1` bytes — unconditionally, for either codec — and
the message is returned; otherwise `None` with the buffer untouched.
Returns the message together with the updated read buffer. -/
def Messenger.get {α : Type} (peel : List Nat → Except PyErr (Option α × Nat))
    (read_buffer : List Nat) : Except PyErr (Option α × List Nat) := do
  let (message, byte_len) ← peel read_buffer
  if byte_len ≠ 0 then
    .ok (message, read_buffer.drop (byte_len + 1))
  else
    .ok (none, read_buffer)

/-- The `BroadcastConnector` state observable by the claims: the
class-level `sockets` dictionary (the PeerTable, address → socket,
insertion-ordered), the cooperative `broadcast_enable` flag, the
loopback policy and the resolved local address.  Sockets are abstract
identifiers. -/
structure BroadcastConnector where
  sockets : List (String × Nat)
  broadcast_enable : Bool
  allow_loopback : Bool
  local_ip : String
deriving Repr, DecidableEq

/-- The lock-protected insert both listener workers perform
(`broadcast_connector.py` lines 135-138 and 161-164): the entry is
added only when no entry exists yet for the address. -/
def BroadcastConnector.insertIfAbsent (tbl : List (String × Nat)) (address : String)
    (sock : Nat) : List (String × Nat) :=
  if (tbl.map Prod.fst).contains address then tbl else tbl ++ [(address, sock)]

/-- Folding a sequence of insert attempts (from either worker, in
arrival order) into the PeerTable. -/
def BroadcastConnector.runInserts (tbl : List (String × Nat))
    (attempts : List (String × Nat)) : List (String × Nat) :=
  attempts.foldl (fun t p => BroadcastConnector.insertIfAbsent t p.1 p.2) tbl

/-- The guard in `__udp_listen` (line 124) deciding whether a received
broadcast from `address` triggers an outbound TCP connection attempt:
the address must not already be in the PeerTable, and must differ from
the local address unless loopback is allowed. -/
def BroadcastConnector.udp_should_connect (bc : BroadcastConnector) (address : String) : Bool :=
  !((bc.sockets.map Prod.fst).contains address) &&
    (bc.allow_loopback || !(address == bc.local_ip))

/-- One UDP datagram handled by `__udp_listen` (lines 113-140): when the
guard passes, a TCP connect is attempted; on success (`connect_ok`) the
socket is inserted under the lock, again only if the address is absent. -/
def BroadcastConnector.udp_handle_datagram (bc : BroadcastConnector) (address : String)
    (connect_ok : Bool) (sock : Nat) : BroadcastConnector :=
  if bc.udp_should_connect address then
    if connect_ok then
      { bc with sockets := BroadcastConnector.insertIfAbsent bc.sockets address sock }
    else bc
  else bc

/-- One accepted connection handled by `__tcp_listen` (lines 151-166). -/
def BroadcastConnector.tcp_handle_accept (bc : BroadcastConnector) (address : String)
    (sock : Nat) : BroadcastConnector :=
  { bc with sockets := BroadcastConnector.insertIfAbsent bc.sockets address sock }

/-- `_make_connections` (lines 40-59): re-arms `broadcast_enable`,
resolves the local address and starts the worker threads.  It never
touches `sockets` — the class-level dictionary carries over whatever it
already held. -/
def BroadcastConnector.make_connections (bc : BroadcastConnector)
    (resolved_local_ip : String) : BroadcastConnector :=
  { bc with broadcast_enable := true, local_ip := resolved_local_ip }

/-- `stop_broadcasting` (lines 74-76). -/
def BroadcastConnector.stop_broadcasting (bc : BroadcastConnector) : BroadcastConnector :=
  { bc with broadcast_enable := false }

/-! ## Helper lemmas -/

theorem contains_false_iff {l : List String} {a : String} : l.contains a = false ↔ a ∉ l := by
  rw [← Bool.not_eq_true]
  exact not_congr List.elem_iff

theorem contains_true_iff {l : List String} {a : String} : l.contains a = true ↔ a ∈ l :=
  List.elem_iff

theorem lookup_eq_none_of_not_mem {tbl : List (String × Nat)} {a : String}
    (h : a ∉ tbl.map Prod.fst) : tbl.lookup a = none := by
  induction tbl with
  | nil => rfl
  | cons kv rest ih =>
    simp only [List.map_cons, List.mem_cons, not_or] at h
    have hb : (a == kv.1) = false := by simpa using h.1
    simp [List.lookup, hb, ih h.2]

theorem runInserts_lookup_of_present {attempts : List (String × Nat)} :
    ∀ {tbl : List (String × Nat)} {a : String} {s : Nat}, tbl.lookup a = some s →
      (BroadcastConnector.runInserts tbl attempts).lookup a = some s := by
  induction attempts with
  | nil => intro tbl a s h; exact h
  | cons p rest ih =>
    intro tbl a s h
    have hstep : (BroadcastConnector.insertIfAbsent tbl p.1 p.2).lookup a = some s := by
      unfold BroadcastConnector.insertIfAbsent
      by_cases hc : (tbl.map Prod.fst).contains p.1 = true
      · rw [if_pos hc]; exact h
      · rw [if_neg hc]
        rw [List.lookup_append]
        simp [h]
    exact ih hstep

theorem runInserts_lookup_of_absent {attempts : List (String × Nat)} :
    ∀ {tbl : List (String × Nat)} {a : String}, a ∉ tbl.map Prod.fst →
      (BroadcastConnector.runInserts tbl attempts).lookup a =
        (attempts.find? (fun p => p.1 == a)).map Prod.snd := by
  induction attempts with
  | nil =>
    intro tbl a h
    simpa [BroadcastConnector.runInserts] using lookup_eq_none_of_not_mem h
  | cons p rest ih =>
    intro tbl a h
    have habs : tbl.lookup a = none := lookup_eq_none_of_not_mem h
    cases hpa : p.1 == a with
    | true =>
      have hpa' : p.1 = a := by rwa [beq_iff_eq] at hpa
      have hstep : (BroadcastConnector.insertIfAbsent tbl p.1 p.2).lookup a = some p.2 := by
        unfold BroadcastConnector.insertIfAbsent
        rw [hpa']
        rw [if_neg (by rw [contains_false_iff.2 h]; simp)]
        rw [List.lookup_append, habs]
        simp [List.lookup]
      have hrest : (BroadcastConnector.runInserts (BroadcastConnector.insertIfAbsent tbl p.1 p.2)
          rest).lookup a = some p.2 := runInserts_lookup_of_present hstep
      simpa [BroadcastConnector.runInserts, List.find?, hpa] using hrest
    | false =>
      have hne : ¬ p.1 = a := by simpa using (beq_eq_false_iff_ne (a := p.1) (b := a)).1 hpa
      have hstep : a ∉ (BroadcastConnector.insertIfAbsent tbl p.1 p.2).map Prod.fst := by
        unfold BroadcastConnector.insertIfAbsent
        by_cases hc : (tbl.map Prod.fst).contains p.1 = true
        · rw [if_pos hc]; exact h
        · rw [if_neg hc]
          simp only [List.map_append, List.mem_append, not_or]
          exact ⟨h, by simpa using fun heq => hne heq.symm⟩
      have hrest := ih hstep
      simpa [BroadcastConnector.runInserts, List.find?, hpa] using hrest

theorem insertIfAbsent_keys_nodup {tbl : List (String × Nat)} {a : String} {s : Nat}
    (h : (tbl.map Prod.fst).Nodup) :
    ((BroadcastConnector.insertIfAbsent tbl a s).map Prod.fst).Nodup := by
  unfold BroadcastConnector.insertIfAbsent
  by_cases hc : (tbl.map Prod.fst).contains a = true
  · rw [if_pos hc]; exact h
  · rw [if_neg hc]
    have hna : a ∉ tbl.map Prod.fst := contains_false_iff.1 (by simpa using hc)
    simp only [List.map_append]
    rw [List.nodup_append]
    refine ⟨h, List.nodup_singleton _, ?_⟩
    intro x hx hxa
    simp only [List.map_cons, List.map_nil, List.mem_singleton] at hxa
    exact hna (hxa ▸ hx)

theorem runInserts_keys_nodup {attempts : List (String × Nat)} :
    ∀ {tbl : List (String × Nat)}, (tbl.map Prod.fst).Nodup →
      ((BroadcastConnector.runInserts tbl attempts).map Prod.fst).Nodup := by
  induction attempts with
  | nil => intro tbl h; exact h
  | cons p rest ih =>
    intro tbl h
    exact ih (insertIfAbsent_keys_nodup h)

/-! ## Claim theorems -/

/-- C4: the PeerTable holds at most one entry per address and the first
recorded connection wins: folding any sequence of guarded inserts (the
lock-protected step both the UDP-listen and TCP-listen workers run)
from an empty table maps each address to the socket of its first
attempt, with later duplicates discarded, and the key set stays
duplicate-free. -/
theorem claim_C4_peer_table_first_wins (attempts : List (String × Nat)) (addr : String) :
    (BroadcastConnector.runInserts [] attempts).lookup addr =
        ((attempts.find? (fun p => p.1 == addr)).map Prod.snd) ∧
      ((BroadcastConnector.runInserts [] attempts).map Prod.fst).Nodup := by
  exact ⟨runInserts_lookup_of_absent (by simp), runInserts_keys_nodup (by simp)⟩

/-- C8: with loopback disallowed, a UDP broadcast from the local
machine's own resolved address, or from an address already present in
the PeerTable, never passes the connect guard of the discovery-listener
worker, so no outbound TCP connection is initiated and the state is
unchanged. -/
theorem claim_C8_discovery_self_filter (bc : BroadcastConnector) (addr : String)
    (connect_ok : Bool) (sock : Nat) (h1 : bc.allow_loopback = false)
    (h2 : addr = bc.local_ip ∨ (bc.sockets.map Prod.fst).contains addr = true) :
    bc.udp_should_connect addr = false ∧ bc.udp_handle_datagram addr connect_ok sock = bc := by
  have hguard : bc.udp_should_connect addr = false := by
    unfold BroadcastConnector.udp_should_connect
    rcases h2 with h2 | h2
    · subst h2
      simp [h1]
    · rw [h2]
      simp
  refine ⟨hguard, ?_⟩
  unfold BroadcastConnector.udp_handle_datagram
  rw [hguard]
  simp

/-- C8 witness: a broadcast from the local address with an empty table,
and one from an address already connected, are both filtered. -/
theorem claim_C8_discovery_self_filter_witness :
    (BroadcastConnector.udp_should_connect ⟨[], true, false, "192.168.1.5"⟩ "192.168.1.5"
        = false ∧
      BroadcastConnector.udp_handle_datagram ⟨[], true, false, "192.168.1.5"⟩ "192.168.1.5"
        true 7 = ⟨[], true, false, "192.168.1.5"⟩) ∧
    (BroadcastConnector.udp_should_connect ⟨[("10.0.0.2", 3)], true, false, "192.168.1.5"⟩
        "10.0.0.2" = false ∧
      BroadcastConnector.udp_handle_datagram ⟨[("10.0.0.2", 3)], true, false, "192.168.1.5"⟩
        "10.0.0.2" true 7 = ⟨[("10.0.0.2", 3)], true, false, "192.168.1.5"⟩) :=
  ⟨claim_C8_discovery_self_filter _ _ true 7 rfl (Or.inl rfl),
   claim_C8_discovery_self_filter _ _ true 7 rfl (Or.inr (by decide))⟩

/-- C9 (code bug): the PeerTable is the class-level `sockets` dictionary
and `_make_connections` never resets it, so a session started after a
previous one connected peer 10.0.0.7 still sees that entry instead of
an empty table. -/
theorem claim_C9_peer_table_survives_restart :
    ((((BroadcastConnector.make_connections ⟨[], false, false, ""⟩
            "192.168.1.5").tcp_handle_accept "10.0.0.7"
          41).stop_broadcasting.make_connections "192.168.1.5").sockets
        = [("10.0.0.7", 41)]) ∧
      ((((BroadcastConnector.make_connections ⟨[], false, false, ""⟩
            "192.168.1.5").tcp_handle_accept "10.0.0.7"
          41).stop_broadcasting.make_connections "192.168.1.5").sockets
        ≠ []) := by
  decide

/-- C10: byte-codec extraction is not total on short buffers whose
declared length is below 2: on any 1-byte buffer `[b0]` with
`b0 ≤ 1` the length check passes and the unguarded `buffer[1]` read
raises `IndexError` instead of returning `(None, 0)`. -/
theorem claim_C10_short_declared_length_index_error (du dh : String) (b0 : Nat)
    (h : b0 ≤ 1) :
    Byte_Message.peel_from_buffer du dh [b0] = .error .indexError := by
  unfold Byte_Message.peel_from_buffer
  simp [h]

/-- C10 witness: the single-byte buffer `[0x01]`. -/
theorem claim_C10_short_declared_length_index_error_witness :
    Byte_Message.peel_from_buffer "u" "h" [1] = .error .indexError :=
  claim_C10_short_declared_length_index_error "u" "h" 1 (by decide)

/-- C7: partial-buffer stability.  A byte-codec buffer whose declared
length exceeds the buffer, and a text-codec buffer holding no
terminator byte, both yield `(None, 0)`; and on a zero consumption
`Messenger.get` returns the read buffer unchanged. -/
theorem claim_C7_partial_buffer_stability (du dh : String) (b0 : Nat) (brest : List Nat)
    (tbuf : List Nat) (hb : (b0 :: brest).length < b0) (ht : 10 ∉ tbuf) :
    Byte_Message.peel_from_buffer du dh (b0 :: brest) = .ok (none, 0) ∧
      Message.peel_from_buffer du dh tbuf = .ok (none, 0) ∧
      Messenger.get (Byte_Message.peel_from_buffer du dh) (b0 :: brest)
        = .ok (none, b0 :: brest) ∧
      Messenger.get (Message.peel_from_buffer du dh) tbuf = .ok (none, tbuf) := by
  have hble : ¬ b0 ≤ (b0 :: brest).length := Nat.not_le.2 hb
  have hbyte : Byte_Message.peel_from_buffer du dh (b0 :: brest) = .ok (none, 0) := by
    simp only [Byte_Message.peel_from_buffer]
    rw [if_neg hble]
  have hfind : tbuf.findIdx? (· = 10) = none := by
    rw [List.findIdx?_eq_none_iff]
    intro x hx
    simp only [decide_eq_false_iff_not]
    exact fun h10 => ht (h10 ▸ hx)
  have htext : Message.peel_from_buffer du dh tbuf = .ok (none, 0) := by
    simp only [Message.peel_from_buffer, hfind]
  refine ⟨hbyte, htext, ?_, ?_⟩
  · unfold Messenger.get
    rw [hbyte]
    rfl
  · unfold Messenger.get
    rw [htext]
    rfl

/-- C7 witness: the byte buffer `[5, 1, 2]` (declares 5 bytes, holds 3)
and the terminator-less text buffer `"[]"`. -/
theorem claim_C7_partial_buffer_stability_witness :
    Byte_Message.peel_from_buffer "u" "h" [5, 1, 2] = .ok (none, 0) ∧
      Message.peel_from_buffer "u" "h" [91, 93] = .ok (none, 0) ∧
      Messenger.get (Byte_Message.peel_from_buffer "u" "h") [5, 1, 2]
        = .ok (none, [5, 1, 2]) ∧
      Messenger.get (Message.peel_from_buffer "u" "h") [91, 93] = .ok (none, [91, 93]) :=
  claim_C7_partial_buffer_stability "u" "h" 5 [1, 2] [91, 93] (by decide) (by decide)

/-- C1 (code bug): `Messenger.get` drops `byte_len + 1` bytes for either
codec, so with the byte codec (where `peel_from_buffer` already counts
the whole message) one extra byte is consumed: on the buffer holding
the back-to-back well-formed messages `Join` (`[2, 2]`) and `Retry`
(`[2, 3]`), the first `get` eats 3 bytes and the second `get` finds
only the orphaned byte `[3]` and returns `None` — the second message is
lost instead of being returned. -/
theorem claim_C1_messenger_get_byte_misalignment :
    Byte_Message.encoded .join = .ok [2, 2] ∧
      Byte_Message.encoded .retry = .ok [2, 3] ∧
      Messenger.get (Byte_Message.peel_from_buffer "u" "h") [2, 2, 2, 3]
        = .ok (some .join, [3]) ∧
      Messenger.get (Byte_Message.peel_from_buffer "u" "h") [3] = .ok (none, [3]) := by
  decide

/-- C5 (code bug): on the concatenation of the four distinct encoded
messages `Join ++ Identify("u","h") ++ Retry ++ Quit`, the four
successive extractions (each advancing by its reported consumption) do
consume the right byte counts, but `decode_data` receives `buffer[2:]`
— everything after the header — so the second message comes back as
`Identify("u", "h\x02\x03\x02\x04")`, its hostname polluted with the
bytes of the following messages, not the original `Identify("u","h")`. -/
theorem claim_C5_concatenation_payload_bleed :
    Byte_Message.encoded .join = .ok [2, 2] ∧
      Byte_Message.encoded (.identify "u" "h") = .ok [5, 1, 117, 64, 104] ∧
      Byte_Message.encoded .retry = .ok [2, 3] ∧
      Byte_Message.encoded .quit = .ok [2, 4] ∧
      Byte_Message.peel_from_buffer "du" "dh" [2, 2, 5, 1, 117, 64, 104, 2, 3, 2, 4]
        = .ok (some .join, 2) ∧
      Byte_Message.peel_from_buffer "du" "dh" [5, 1, 117, 64, 104, 2, 3, 2, 4]
        = .ok (some (.identify "u" "h\x02\x03\x02\x04"), 5) ∧
      Byte_Message.peel_from_buffer "du" "dh" [2, 3, 2, 4] = .ok (some .retry, 2) ∧
      Byte_Message.peel_from_buffer "du" "dh" [2, 4] = .ok (some .quit, 2) ∧
      Byte_Message.peel_from_buffer "du" "dh" [5, 1, 117, 64, 104, 2, 3, 2, 4]
        ≠ .ok (some (.identify "u" "h"), 5) := by
  decide

/-- C3 counterexample: the buffer `b"[]\n"` has a line that fails to
decode into a registered message (it is JSON, but not the expected
envelope), yet text-codec extraction raises an uncaught `IndexError`
at `payload[0]` instead of logging and returning `(None, 0)`. -/
theorem claim_C3_counterexample_empty_array_line :
    Message.peel_from_buffer "u" "h" [91, 93, 10] = .error .indexError ∧
      Message.peel_from_buffer "u" "h" [91, 93, 10] ≠ .ok (none, 0) := by
  decide

/-- Whether a character sequence contains a `\uXXXX` escape naming a
surrogate code point (a conservative scan: any such six-character
window counts, wherever it sits). -/
def hasSurrogateEscape : List Char → Bool
  | [] => false
  | c :: rest =>
    (match c, rest with
     | '\\', 'u' :: h1 :: h2 :: h3 :: h4 :: _ =>
       match hexVal h1, hexVal h2, hexVal h3, hexVal h4 with
       | some a, some b, some c3, some d =>
         decide (0xd800 ≤ a * 4096 + b * 256 + c3 * 16 + d ∧
           a * 4096 + b * 256 + c3 * 16 + d < 0xe000)
       | _, _, _, _ => false
     | _, _ => false) ||
    hasSurrogateEscape rest

/-- C3 (amended): failures of the UTF-8 decode / JSON parse stage —
the part the source wraps in `try` — are caught and yield `(None, 0)`
without an exception; lines that parse as JSON but are not the expected
envelope are outside that protection.  Lines containing surrogate
`\uXXXX` escapes are excluded by hypothesis: Python's parser accepts
them (lone surrogates inside a `str`, or pairs combined into one
character), producing strings outside this model's representable
domain; on every other line the model parser fails exactly where
`json.loads` fails. -/
theorem claim_C3_parse_stage_failures_swallowed (du dh : String) (buf : List Nat) (pos : Nat)
    (hfind : buf.findIdx? (· = 10) = some pos)
    (hfail : (decodeUtf8 (buf.take pos)).bind jsonLoads = none)
    (_hsur : ∀ line, decodeUtf8 (buf.take pos) = some line → hasSurrogateEscape line = false) :
    Message.peel_from_buffer du dh buf = .ok (none, 0) := by
  simp only [Message.peel_from_buffer, hfind, hfail]

/-- C3 witness: the buffer `[0xff, 0x0a]`, whose line is not UTF-8, and
the buffer `b"[,]\n"`, whose line is text that is not JSON. -/
theorem claim_C3_parse_stage_failures_swallowed_witness :
    Message.peel_from_buffer "u" "h" [255, 10] = .ok (none, 0) ∧
      Message.peel_from_buffer "u" "h" [91, 44, 93, 10] = .ok (none, 0) :=
  ⟨claim_C3_parse_stage_failures_swallowed "u" "h" [255, 10] 1 (by decide) (by decide)
    (fun line h => by
      rw [show decodeUtf8 (List.take 1 [255, 10]) = none from rfl] at h
      exact Option.noConfusion h),
   claim_C3_parse_stage_failures_swallowed "u" "h" [91, 44, 93, 10] 3 (by decide) (by decide)
    (fun line h => by
      have h3 : (some ['[', ',', ']'] : Option (List Char)) = some line := by
        rw [← h]
        rfl
      rw [← Option.some.inj h3]
      decide)⟩

/-- C6: a complete message carrying an unregistered registry key — a
type code outside the registry for the byte codec, an unregistered
type name for the text codec — makes extraction raise the
unknown-message-type `KeyError` rather than decode garbage or return
`None`. -/
theorem claim_C6_unknown_key_raises (du dh : String) (b0 b1 : Nat) (brest : List Nat)
    (tbuf : List Nat) (pos : Nat) (nm : String) (prest : List Json)
    (hb0 : b0 ≤ (b0 :: b1 :: brest).length)
    (hb1 : Byte_Message.class_defs.lookup b1 = none)
    (hfind : tbuf.findIdx? (· = 10) = some pos)
    (hparse : (decodeUtf8 (tbuf.take pos)).bind jsonLoads
      = some (.arr (.str nm :: prest)))
    (hnm : nm ∉ Message.class_defs) :
    Byte_Message.peel_from_buffer du dh (b0 :: b1 :: brest) = .error .keyError ∧
      Message.peel_from_buffer du dh tbuf = .error .keyError := by
  constructor
  · simp only [Byte_Message.peel_from_buffer, hb1]
    rw [if_pos hb0]
  · simp only [Message.peel_from_buffer, hfind, hparse]
    rw [if_neg hnm]

/-- C6 witness: the byte buffer `[2, 9]` (code 9 unregistered) and the
text buffer `b"[\"MsgNope\", {}]\n"`. -/
theorem claim_C6_unknown_key_raises_witness :
    Byte_Message.peel_from_buffer "u" "h" [2, 9] = .error .keyError ∧
      Message.peel_from_buffer "u" "h"
        [91, 34, 77, 115, 103, 78, 111, 112, 101, 34, 44, 123, 125, 93, 10]
        = .error .keyError :=
  claim_C6_unknown_key_raises "u" "h" 2 9 [] _ 14 "MsgNope" [.obj []]
    (by decide) rfl (by decide) (by decide) (by decide)

theorem decodeUtf8Fuel_ascii : ∀ (l : List Char) (fuel : Nat), l.length ≤ fuel →
    (∀ c ∈ l, c.toNat < 128) → decodeUtf8Fuel fuel (l.map Char.toNat) = some l := by
  intro l
  induction l with
  | nil => intro fuel _ _; cases fuel <;> rfl
  | cons c rest ih =>
    intro fuel hfuel h
    have hc : c.toNat < 128 := h c (by simp)
    cases fuel with
    | zero => simp at hfuel
    | succ f =>
      have hlen : rest.length ≤ f := by
        simp only [List.length_cons] at hfuel
        omega
      have hrest := ih f hlen (fun x hx => h x (by simp [hx]))
      rw [List.map_cons, decodeUtf8Fuel]
      simp only [utf8DecodeOne]
      rw [if_pos hc]
      simp [hrest, Char.ofNat_toNat]

theorem decodeUtf8_ascii (l : List Char) (h : ∀ c ∈ l, c.toNat < 128) :
    decodeUtf8 (l.map Char.toNat) = some l := by
  unfold decodeUtf8
  rw [List.length_map]
  exact decodeUtf8Fuel_ascii l l.length le_rfl h

theorem pySplit_no_sep : ∀ (l : List Char), '@' ∉ l → pySplit '@' l = [l] := by
  intro l
  induction l with
  | nil => intro _; rfl
  | cons c rest ih =>
    intro h
    simp only [List.mem_cons, not_or] at h
    have hne : ¬ c = '@' := fun hc => h.1 hc.symm
    simp [pySplit, hne, ih h.2]

theorem pySplit_append : ∀ (l r : List Char), '@' ∉ l →
    pySplit '@' (l ++ '@' :: r) = l :: pySplit '@' r := by
  intro l
  induction l with
  | nil => intro r _; simp [pySplit]
  | cons c rest ih =>
    intro r h
    simp only [List.mem_cons, not_or] at h
    have hne : ¬ c = '@' := fun hc => h.1 hc.symm
    simp [pySplit, hne, ih r h.2]

def Byte_Message.wire_safe : Byte_Message → Bool
  | .identify u h =>
    u.data.all (fun c => c.toNat < 128) && h.data.all (fun c => c.toNat < 128) &&
      !u.data.contains '@' && !h.data.contains '@' &&
      decide (u.data.length + h.data.length + 3 ≤ 255)
  | _ => true

theorem byte_roundtrip (du dh : String) (m : Byte_Message) (buf : List Nat)
    (hwf : m.wire_safe = true) (he : m.encoded = .ok buf) :
    Byte_Message.peel_from_buffer du dh buf = .ok (some m, buf.length) := by
  cases m with
  | join =>
    rw [show Byte_Message.join.encoded = .ok [2, 2] from rfl, Except.ok.injEq] at he
    subst he
    rfl
  | retry =>
    rw [show Byte_Message.retry.encoded = .ok [2, 3] from rfl, Except.ok.injEq] at he
    subst he
    rfl
  | quit =>
    rw [show Byte_Message.quit.encoded = .ok [2, 4] from rfl, Except.ok.injEq] at he
    subst he
    rfl
  | identify u h =>
    simp only [Byte_Message.wire_safe, Bool.and_eq_true, decide_eq_true_eq,
      Bool.not_eq_true'] at hwf
    obtain ⟨⟨⟨⟨hu, hh⟩, hcu⟩, hch⟩, hlen⟩ := hwf
    have hu' : ∀ c ∈ u.data, c.toNat < 128 := fun c hc => by
      simpa using List.all_eq_true.1 hu c hc
    have hh' : ∀ c ∈ h.data, c.toNat < 128 := fun c hc => by
      simpa using List.all_eq_true.1 hh c hc
    have hcu' : '@' ∉ u.data := fun hmem => by
      simp only [List.contains] at hcu
      rw [List.elem_iff.2 hmem] at hcu; cases hcu
    have hch' : '@' ∉ h.data := fun hmem => by
      simp only [List.contains] at hch
      rw [List.elem_iff.2 hmem] at hch; cases hch
    set s : List Char := u.data ++ '@' :: h.data with hs
    have hs' : ∀ c ∈ s, c.toNat < 128 := by
      intro c hc
      rw [hs] at hc
      rcases List.mem_append.1 hc with hc | hc
      · exact hu' c hc
      · rcases List.mem_cons.1 hc with hc | hc
        · subst hc; decide
        · exact hh' c hc
    have hall : s.all (fun c => decide (c.toNat < 128)) = true := by
      rw [List.all_eq_true]
      intro c hc
      simpa using hs' c hc
    have hslen : s.length = u.data.length + 1 + h.data.length := by
      rw [hs]
      simp only [List.length_append, List.length_cons]
      omega
    have hlen' : ¬ 255 < (s.map Char.toNat).length + 2 := by
      rw [List.length_map, hslen]; omega
    have henc : (Byte_Message.identify u h).encoded = .ok ((s.length + 2) :: 1 :: s.map Char.toNat) := by
      have he1 : (Byte_Message.identify u h).encode = .ok (s.map Char.toNat) := by
        simp only [Byte_Message.encode, hs]
        rw [if_pos hall]
      unfold Byte_Message.encoded
      rw [he1]
      show (if 255 < (s.map Char.toNat).length + 2 then (.error .valueError : Except PyErr (List Nat))
          else .ok (((s.map Char.toNat).length + 2) :: (Byte_Message.identify u h).code
            :: s.map Char.toNat))
        = .ok ((s.length + 2) :: 1 :: s.map Char.toNat)
      rw [if_neg hlen']
      simp only [Byte_Message.code, List.length_map]
    rw [henc, Except.ok.injEq] at he
    subst he
    simp only [Byte_Message.peel_from_buffer]
    rw [if_pos (show s.length + 2 ≤ ((s.length + 2) :: 1 :: s.map Char.toNat).length by
      simp only [List.length_cons, List.length_map]
      omega)]
    have hlk : Byte_Message.class_defs.lookup 1
        = some (fun du dh => Byte_Message.identify du dh) := rfl
    simp only [hlk]
    rw [if_pos (by omega : 2 < s.length + 2)]
    simp only [List.drop_succ_cons, List.drop_zero]
    have hsplit : pySplit '@' s = [u.data, h.data] := by
      rw [hs, pySplit_append u.data h.data hcu', pySplit_no_sep h.data hch']
    have hdec : Byte_Message.identify_decode_data (s.map Char.toNat)
        = .ok (.identify u h) := by
      simp only [Byte_Message.identify_decode_data, decodeUtf8_ascii s hs', hsplit]
    rw [hdec]
    show Except.ok (some (Byte_Message.identify u h), s.length + 2)
      = .ok (some (Byte_Message.identify u h), ((s.length + 2) :: 1 :: s.map Char.toNat).length)
    simp only [List.length_cons, List.length_map]

/-- Characters that serialize to themselves inside a JSON string:
printable ASCII other than the quote and the backslash. -/
def jsonSafeChar (c : Char) : Bool :=
  decide (0x20 ≤ c.toNat) && decide (c.toNat ≤ 0x7e) && !(c == '"') && !(c == '\\')

/-- A string of self-serializing characters. -/
def jsonSafeString (s : String) : Bool := s.data.all jsonSafeChar

/-- Values that serialize to themselves: strings of safe characters. -/
def Json.strSafe : Json → Bool
  | .str s => jsonSafeString s
  | _ => false

theorem jsonSafeChar_spec {c : Char} (h : jsonSafeChar c = true) :
    0x20 ≤ c.toNat ∧ c.toNat ≤ 0x7e ∧ c ≠ '"' ∧ c ≠ '\\' := by
  simp only [jsonSafeChar, Bool.and_eq_true, decide_eq_true_eq, Bool.not_eq_true',
    beq_eq_false_iff_ne] at h
  tauto

theorem escapeChar_safe {c : Char} (h : jsonSafeChar c = true) : escapeChar c = [c] := by
  obtain ⟨h1, h2, h3, h4⟩ := jsonSafeChar_spec h
  have hn : c ≠ '\n' := fun hc => by subst hc; exact absurd h1 (by decide)
  have ht : c ≠ '\t' := fun hc => by subst hc; exact absurd h1 (by decide)
  have hr : c ≠ '\r' := fun hc => by subst hc; exact absurd h1 (by decide)
  have hb : c ≠ '\x08' := fun hc => by subst hc; exact absurd h1 (by decide)
  have hf : c ≠ '\x0c' := fun hc => by subst hc; exact absurd h1 (by decide)
  have hrange : ¬ (c.toNat < 0x20 ∨ 0x7e < c.toNat) := by omega
  unfold escapeChar
  rw [if_neg h3, if_neg h4, if_neg hn, if_neg ht, if_neg hr, if_neg hb, if_neg hf,
    if_neg hrange]

theorem escString_safe : ∀ (l : List Char), l.all jsonSafeChar = true →
    escString l = l ++ ['"'] := by
  intro l
  induction l with
  | nil => intro _; rfl
  | cons c rest ih =>
    intro h
    rw [List.all_cons, Bool.and_eq_true] at h
    rw [escString, escapeChar_safe h.1, ih h.2]
    rfl

theorem skipWs_not_ws {c : Char} (h : isWsChar c = false) (r : List Char) :
    skipWs (c :: r) = c :: r := by
  simp [skipWs, h]

theorem parseStrRest_safe : ∀ (l acc rest : List Char), l.all jsonSafeChar = true →
    parseStrRest acc (l ++ '"' :: rest) = some (String.mk (acc ++ l), rest) := by
  intro l
  induction l with
  | nil =>
    intro acc rest _
    rw [List.nil_append, parseStrRest.eq_def]
    dsimp only
    rw [if_pos rfl]
    simp
  | cons c l ih =>
    intro acc rest h
    rw [List.all_cons, Bool.and_eq_true] at h
    obtain ⟨h1, _, h3, h4⟩ := jsonSafeChar_spec h.1
    rw [List.cons_append, parseStrRest.eq_def]
    dsimp only
    rw [if_neg h3, if_neg h4, if_pos h1]
    rw [ih (acc ++ [c]) rest h.2]
    simp

theorem parseVal_str (fuel : Nat) (s : String) (rest : List Char)
    (h : jsonSafeString s = true) :
    parseVal (fuel + 1) (Json.dumps (.str s) ++ rest) = some (.str s, rest) := by
  have hd : Json.dumps (.str s) = '"' :: (s.data ++ ['"']) := by
    rw [Json.dumps, escString_safe s.data h]
  rw [hd]
  rw [List.cons_append, parseVal]
  rw [skipWs_not_ws (by decide)]
  dsimp only
  rw [if_pos rfl]
  have hshape : (s.data ++ ['"']) ++ rest = s.data ++ '"' :: rest := by simp
  rw [hshape, parseStrRest_safe s.data [] rest h]
  simp

theorem parseFields_safe : ∀ (fields : List (String × Json)) (fuel : Nat) (rest : List Char),
    fields.length ≤ fuel →
    fields.all (fun kv => jsonSafeString kv.1 && kv.2.strSafe) = true →
    fields ≠ [] →
    parseFields (fuel + 1) (Json.dumpsFields fields ++ rest) = some (fields, rest) := by
  intro fields
  induction fields with
  | nil => intro fuel rest _ _ hne; exact absurd rfl hne
  | cons f fs ih =>
    intro fuel rest hlen hall hne
    obtain ⟨k, v⟩ := f
    rw [List.all_cons, Bool.and_eq_true] at hall
    obtain ⟨hkv, halls⟩ := hall
    rw [Bool.and_eq_true] at hkv
    obtain ⟨hk, hv⟩ := hkv
    cases v with
    | str sv =>
      have hfuel1 : 1 ≤ fuel := by
        simp only [List.length_cons] at hlen; omega
      obtain ⟨fu, rfl⟩ : ∃ fu, fuel = fu + 1 := ⟨fuel - 1, by omega⟩
      cases fs with
      | nil =>
        rw [show Json.dumpsFields [(k, Json.str sv)]
            = '"' :: ((k.data ++ ['"']) ++ ':' :: Json.dumps (.str sv) ++ [rbrace]) from by
          rw [Json.dumpsFields, escString_safe k.data hk]
          simp [List.append_assoc]]
        rw [List.cons_append, parseFields]
        rw [skipWs_not_ws (by decide)]
        dsimp only
        rw [if_pos rfl]
        rw [show ((k.data ++ ['"']) ++ ':' :: Json.dumps (.str sv) ++ [rbrace]) ++ rest
            = k.data ++ '"' :: (':' :: (Json.dumps (.str sv) ++ rbrace :: rest)) from by
          simp]
        rw [parseStrRest_safe k.data [] _ hk]
        dsimp only
        rw [skipWs_not_ws (by decide)]
        dsimp only
        rw [if_pos rfl]
        rw [parseVal_str fu sv _ (by simpa [Json.strSafe] using hv)]
        dsimp only
        rw [skipWs_not_ws (by decide)]
        dsimp only
        rw [if_neg (by decide : ¬ (rbrace = ','))]
        rw [if_pos rfl]
        simp
      | cons f2 fs' =>
        rw [show Json.dumpsFields ((k, Json.str sv) :: f2 :: fs')
            = '"' :: ((k.data ++ ['"']) ++ ':' :: Json.dumps (.str sv)
              ++ ',' :: Json.dumpsFields (f2 :: fs')) from by
          rw [Json.dumpsFields, escString_safe k.data hk]
          · simp [List.append_assoc]
          · exact List.cons_ne_nil f2 fs']
        rw [List.cons_append, parseFields]
        rw [skipWs_not_ws (by decide)]
        dsimp only
        rw [if_pos rfl]
        rw [show ((k.data ++ ['"']) ++ ':' :: Json.dumps (.str sv)
              ++ ',' :: Json.dumpsFields (f2 :: fs')) ++ rest
            = k.data ++ '"' :: (':' :: (Json.dumps (.str sv)
              ++ ',' :: (Json.dumpsFields (f2 :: fs') ++ rest))) from by
          simp]
        rw [parseStrRest_safe k.data [] _ hk]
        dsimp only
        rw [skipWs_not_ws (by decide)]
        dsimp only
        rw [if_pos rfl]
        rw [parseVal_str fu sv _ (by simpa [Json.strSafe] using hv)]
        dsimp only
        rw [skipWs_not_ws (by decide)]
        dsimp only
        rw [if_pos rfl]
        have hlen' : (f2 :: fs').length ≤ fu := by
          simp only [List.length_cons] at hlen ⊢; omega
        obtain ⟨fv, rfl⟩ : ∃ fv, fu = fv + 1 := ⟨fu - 1, by
          simp only [List.length_cons] at hlen'; omega⟩
        rw [ih (fv + 1) rest hlen' halls (by simp)]
        simp
    | null => simp [Json.strSafe] at hv
    | bool b => simp [Json.strSafe] at hv
    | num n => simp [Json.strSafe] at hv
    | float lit => simp [Json.strSafe] at hv
    | arr l => simp [Json.strSafe] at hv
    | obj o => simp [Json.strSafe] at hv

theorem dumpsFields_cons_head (f1 : String × Json) (fs : List (String × Json)) :
    ∃ t, Json.dumpsFields (f1 :: fs) = '"' :: t := by
  obtain ⟨k, v⟩ := f1
  cases fs with
  | nil => exact ⟨_, rfl⟩
  | cons f2 fs' => exact ⟨_, rfl⟩

theorem parseVal_obj (fields : List (String × Json)) (fuel : Nat) (rest : List Char)
    (hlen : fields.length + 1 ≤ fuel)
    (hall : fields.all (fun kv => jsonSafeString kv.1 && kv.2.strSafe) = true) :
    parseVal (fuel + 1) (Json.dumps (.obj fields) ++ rest) = some (.obj fields, rest) := by
  rw [show Json.dumps (.obj fields) = lbrace :: Json.dumpsFields fields from rfl]
  rw [List.cons_append, parseVal]
  rw [skipWs_not_ws (by decide)]
  dsimp only
  rw [if_neg (by decide : ¬ (lbrace = '"')), if_neg (by decide : ¬ (lbrace = '[')),
    if_pos rfl]
  cases fields with
  | nil =>
    rw [show Json.dumpsFields [] = [rbrace] from rfl]
    rw [List.cons_append, skipWs_not_ws (by decide)]
    dsimp only
    rw [if_pos rfl]
    rfl
  | cons f1 fs =>
    obtain ⟨t, ht⟩ := dumpsFields_cons_head f1 fs
    rw [ht, List.cons_append, skipWs_not_ws (by decide)]
    dsimp only
    rw [if_neg (by decide : ¬ ('"' = rbrace))]
    rw [← List.cons_append, ← ht]
    obtain ⟨fu, rfl⟩ : ∃ fu, fuel = fu + 1 := ⟨fuel - 1, by omega⟩
    rw [parseFields_safe (f1 :: fs) fu rest (by simp only [List.length_cons] at hlen ⊢; omega)
      hall (List.cons_ne_nil f1 fs)]

theorem parseVal_envelope (nm : String) (fields : List (String × Json)) (fuel : Nat)
    (rest : List Char) (hfuel : fields.length + 4 ≤ fuel)
    (hnm : jsonSafeString nm = true)
    (hall : fields.all (fun kv => jsonSafeString kv.1 && kv.2.strSafe) = true) :
    parseVal (fuel + 1) (Json.dumps (.arr [.str nm, .obj fields]) ++ rest)
      = some (.arr [.str nm, .obj fields], rest) := by
  have hshape : Json.dumps (.arr [.str nm, .obj fields])
      = '[' :: (Json.dumps (.str nm) ++ ',' :: (Json.dumps (.obj fields) ++ [']'])) := by
    rfl
  rw [hshape, List.cons_append, parseVal]
  rw [skipWs_not_ws (by decide)]
  dsimp only
  rw [if_neg (by decide : ¬ ('[' = '"')), if_pos rfl]
  have hstr : Json.dumps (.str nm) = '"' :: (nm.data ++ ['"']) := by
    rw [Json.dumps, escString_safe nm.data hnm]
  rw [hstr]
  rw [show ('"' :: (nm.data ++ ['"']) ++ ',' :: (Json.dumps (.obj fields) ++ [']'])) ++ rest
      = '"' :: ((nm.data ++ ['"']) ++ ',' :: (Json.dumps (.obj fields) ++ ']' :: rest)) from by
    simp]
  rw [skipWs_not_ws (by decide)]
  dsimp only
  rw [if_neg (by decide : ¬ ('"' = ']'))]
  obtain ⟨f1, rfl⟩ : ∃ f1, fuel = f1 + 1 := ⟨fuel - 1, by omega⟩
  rw [parseElems]
  rw [show ('"' :: ((nm.data ++ ['"']) ++ ',' :: (Json.dumps (.obj fields) ++ ']' :: rest)))
      = Json.dumps (.str nm) ++ (',' :: (Json.dumps (.obj fields) ++ ']' :: rest)) from by
    rw [hstr]; simp]
  obtain ⟨f2, rfl⟩ : ∃ f2, f1 = f2 + 1 := ⟨f1 - 1, by omega⟩
  rw [parseVal_str f2 nm _ hnm]
  dsimp only
  rw [skipWs_not_ws (by decide)]
  dsimp only
  rw [if_pos rfl]
  rw [parseElems]
  obtain ⟨f3, rfl⟩ : ∃ f3, f2 = f3 + 1 := ⟨f2 - 1, by omega⟩
  rw [parseVal_obj fields f3 (']' :: rest) (by omega) hall]
  dsimp only
  rw [skipWs_not_ws (by decide)]
  dsimp only
  rw [if_neg (by decide : ¬ (']' = ',')), if_pos rfl]

/-- Printable ASCII: the character range the compact serializer emits
for safe envelopes. -/
def printableChar (c : Char) : Bool := decide (0x20 ≤ c.toNat) && decide (c.toNat ≤ 0x7e)

theorem safeString_printable {s : String} (h : jsonSafeString s = true) :
    s.data.all printableChar = true := by
  simp only [jsonSafeString] at h
  rw [List.all_eq_true] at h ⊢
  intro c hc
  obtain ⟨h1, h2, _, _⟩ := jsonSafeChar_spec (h c hc)
  simp [printableChar, h1, h2]

theorem dumpsFields_printable : ∀ (fields : List (String × Json)),
    fields.all (fun kv => jsonSafeString kv.1 && kv.2.strSafe) = true →
    (Json.dumpsFields fields).all printableChar = true := by
  intro fields
  induction fields with
  | nil => intro _; decide
  | cons f fs ih =>
    intro hall
    obtain ⟨k, v⟩ := f
    rw [List.all_cons, Bool.and_eq_true] at hall
    obtain ⟨hkv, halls⟩ := hall
    rw [Bool.and_eq_true] at hkv
    obtain ⟨hk, hv⟩ := hkv
    cases v with
    | str sv =>
      have hsv : jsonSafeString sv = true := by simpa [Json.strSafe] using hv
      have hda : Json.dumps (.str sv) = '"' :: (sv.data ++ ['"']) := by
        rw [Json.dumps, escString_safe sv.data hsv]
      have h1 := safeString_printable hk
      have h2 := safeString_printable hsv
      cases fs with
      | nil =>
        rw [Json.dumpsFields, escString_safe k.data hk, hda]
        simp only [List.all_append, List.all_cons, List.all_nil, Bool.and_eq_true]
        repeat' apply And.intro
        all_goals first | decide | exact h1 | exact h2
      | cons f2 fs' =>
        rw [show Json.dumpsFields ((k, Json.str sv) :: f2 :: fs')
            = '"' :: escString k.data ++ ':' :: Json.dumps (.str sv)
              ++ ',' :: Json.dumpsFields (f2 :: fs') from by
          rw [Json.dumpsFields]
          exact List.cons_ne_nil f2 fs']
        rw [escString_safe k.data hk, hda]
        simp only [List.all_append, List.all_cons, List.all_nil, Bool.and_eq_true]
        repeat' apply And.intro
        all_goals first | decide | exact h1 | exact h2 | exact ih halls
    | null => simp [Json.strSafe] at hv
    | bool b => simp [Json.strSafe] at hv
    | num n => simp [Json.strSafe] at hv
    | float lit => simp [Json.strSafe] at hv
    | arr l => simp [Json.strSafe] at hv
    | obj o => simp [Json.strSafe] at hv

theorem dumps_env_printable (nm : String) (fields : List (String × Json))
    (hnm : jsonSafeString nm = true)
    (hall : fields.all (fun kv => jsonSafeString kv.1 && kv.2.strSafe) = true) :
    (Json.dumps (.arr [.str nm, .obj fields])).all printableChar = true := by
  rw [show Json.dumps (.arr [.str nm, .obj fields])
      = '[' :: (Json.dumps (.str nm) ++ ',' :: (Json.dumps (.obj fields) ++ [']'])) from rfl]
  rw [show Json.dumps (.str nm) = '"' :: escString nm.data from rfl,
    escString_safe nm.data hnm]
  rw [show Json.dumps (.obj fields) = lbrace :: Json.dumpsFields fields from rfl]
  have h1 := safeString_printable hnm
  have h2 := dumpsFields_printable fields hall
  simp only [List.all_cons, List.all_append, List.all_nil, Bool.and_eq_true]
  repeat' apply And.intro
  all_goals first | decide | exact h1 | exact h2

theorem findIdx?_append_terminator : ∀ (xs : List Nat), (∀ x ∈ xs, x ≠ 10) →
    (xs ++ [10]).findIdx? (· = 10) = some xs.length := by
  intro xs
  induction xs with
  | nil => intro _; simp [List.findIdx?]
  | cons x xs ih =>
    intro h
    have hx : (x = 10) = False := by
      simp [h x (by simp)]
    simp [List.findIdx?_cons, hx, ih (fun y hy => h y (by simp [hy]))]

theorem dumpsFields_length_ge : ∀ (fields : List (String × Json)),
    fields.length + 1 ≤ (Json.dumpsFields fields).length := by
  intro fields
  induction fields with
  | nil => simp [Json.dumpsFields]
  | cons f fs ih =>
    obtain ⟨k, v⟩ := f
    cases fs with
    | nil =>
      rw [show Json.dumpsFields [(k, v)]
          = '"' :: escString k.data ++ ':' :: Json.dumps v ++ [rbrace] from rfl]
      simp only [List.length_cons, List.length_append, List.length_nil]
      omega
    | cons f2 fs' =>
      rw [show Json.dumpsFields ((k, v) :: f2 :: fs')
          = '"' :: escString k.data ++ ':' :: Json.dumps v
            ++ ',' :: Json.dumpsFields (f2 :: fs') from by
        rw [Json.dumpsFields]
        exact List.cons_ne_nil f2 fs']
      simp only [List.length_cons, List.length_append, List.length_nil] at ih ⊢
      omega

theorem dumps_env_length (nm : String) (fields : List (String × Json)) :
    fields.length + 5 ≤ (Json.dumps (.arr [.str nm, .obj fields])).length := by
  rw [show Json.dumps (.arr [.str nm, .obj fields])
      = '[' :: (('"' :: escString nm.data) ++ ',' :: ((lbrace :: Json.dumpsFields fields)
        ++ [']'])) from rfl]
  have := dumpsFields_length_ge fields
  simp only [List.length_cons, List.length_append]
  omega

/-- Attribute-equality of two `__dict__`s, as Python's `==` on dicts:
same keys, same values, order ignored. -/
def attrEq (a b : List (String × Json)) : Bool :=
  a.all (fun kv => decide (b.lookup kv.1 = some kv.2)) &&
    b.all (fun kv => decide (a.lookup kv.1 = some kv.2))

theorem lookup_map_replace_ne {k' : String} {v : Json} (k : String) (hne : k ≠ k') :
    ∀ (t : List (String × Json)),
      (t.map (fun kv => if kv.1 = k' then (k', v) else kv)).lookup k = t.lookup k := by
  intro t
  induction t with
  | nil => rfl
  | cons kv t ih =>
    obtain ⟨a, b⟩ := kv
    rw [List.map_cons]
    by_cases ha : a = k'
    · subst ha
      rw [show (if (a, b).1 = a then (a, v) else (a, b)) = (a, v) from by simp]
      have hk : (k == a) = false := by simpa using hne
      simp [List.lookup, hk, ih]
    · rw [show (if (a, b).1 = k' then (k', v) else (a, b)) = (a, b) from by simp [ha]]
      by_cases hka : k = a
      · subst hka; simp [List.lookup]
      · have hk : (k == a) = false := by simpa using hka
        simp [List.lookup, hk, ih]

theorem lookup_map_replace_eq {k' : String} {v : Json} :
    ∀ (t : List (String × Json)), t.any (fun kv => kv.1 = k') = true →
      (t.map (fun kv => if kv.1 = k' then (k', v) else kv)).lookup k' = some v := by
  intro t
  induction t with
  | nil => intro h; simp at h
  | cons kv t ih =>
    intro h
    obtain ⟨a, b⟩ := kv
    rw [List.map_cons]
    by_cases ha : a = k'
    · subst ha
      rw [show (if (a, b).1 = a then (a, v) else (a, b)) = (a, v) from by simp]
      simp [List.lookup]
    · rw [show (if (a, b).1 = k' then (k', v) else (a, b)) = (a, b) from by simp [ha]]
      have hk : (k' == a) = false := by simpa using (Ne.symm ha)
      rw [List.any_cons] at h
      have h' : t.any (fun kv => kv.1 = k') = true := by
        rcases Bool.or_eq_true_iff.1 h with h | h
        · exact absurd (by simpa using h) ha
        · exact h
      simp [List.lookup, hk, ih h']

theorem lookup_eq_none_of_any_eq_false {k : String} :
    ∀ (t : List (String × Json)), t.any (fun kv => kv.1 = k) = false → t.lookup k = none := by
  intro t
  induction t with
  | nil => intro _; rfl
  | cons kv t ih =>
    intro h
    rw [List.any_cons, Bool.or_eq_false_iff] at h
    have hk : (k == kv.1) = false :=
      beq_eq_false_iff_ne.mpr (Ne.symm (by simpa using h.1))
    simp [List.lookup, hk, ih h.2]

theorem setattr_lookup (t : List (String × Json)) (k' : String) (v : Json) (k : String) :
    (setattr t k' v).lookup k = if k = k' then some v else t.lookup k := by
  unfold setattr
  by_cases hany : t.any (fun kv => kv.1 = k') = true
  · rw [if_pos hany]
    by_cases hk : k = k'
    · subst hk
      rw [if_pos rfl, lookup_map_replace_eq t hany]
    · rw [if_neg hk, lookup_map_replace_ne k hk t]
  · rw [if_neg hany, List.lookup_append]
    by_cases hk : k = k'
    · subst hk
      rw [lookup_eq_none_of_any_eq_false t (Bool.eq_false_iff.mpr hany)]
      simp [List.lookup]
    · rw [if_neg hk]
      have hk' : (k == k') = false := by simpa using hk
      cases h : t.lookup k with
      | some w => simp
      | none => simp [List.lookup, hk']

theorem foldl_setattr_lookup_not_mem :
    ∀ (fields init : List (String × Json)) (k : String), k ∉ fields.map Prod.fst →
      (fields.foldl (fun a kv => setattr a kv.1 kv.2) init).lookup k = init.lookup k := by
  intro fields
  induction fields with
  | nil => intro init k _; rfl
  | cons f fs ih =>
    intro init k hk
    simp only [List.map_cons, List.mem_cons, not_or] at hk
    rw [List.foldl_cons, ih _ k hk.2, setattr_lookup, if_neg hk.1]

theorem foldl_setattr_lookup_mem :
    ∀ (fields init : List (String × Json)) (k : String) (v : Json),
      (fields.map Prod.fst).Nodup → (k, v) ∈ fields →
      (fields.foldl (fun a kv => setattr a kv.1 kv.2) init).lookup k = some v := by
  intro fields
  induction fields with
  | nil => intro init k v _ hmem; simp at hmem
  | cons f fs ih =>
    intro init k v hnd hmem
    rw [List.map_cons, List.nodup_cons] at hnd
    rw [List.foldl_cons]
    rcases List.mem_cons.1 hmem with heq | hmem'
    · subst heq
      rw [foldl_setattr_lookup_not_mem fs _ k hnd.1, setattr_lookup, if_pos rfl]
    · exact ih _ k v hnd.2 hmem'

theorem map_fst_map_replace (k' : String) (v : Json) :
    ∀ (t : List (String × Json)),
      (t.map (fun kv => if kv.1 = k' then (k', v) else kv)).map Prod.fst = t.map Prod.fst := by
  intro t
  induction t with
  | nil => rfl
  | cons kv t ih =>
    obtain ⟨a, b⟩ := kv
    rw [List.map_cons]
    by_cases ha : a = k'
    · subst ha
      rw [show (if (a, b).1 = a then (a, v) else (a, b)) = (a, v) from by simp]
      simp [ih]
    · rw [show (if (a, b).1 = k' then (k', v) else (a, b)) = (a, b) from by simp [ha]]
      simp [ih]

theorem any_key_iff (t : List (String × Json)) (k : String) :
    t.any (fun kv => kv.1 = k) = true ↔ k ∈ t.map Prod.fst := by
  rw [List.any_eq_true]
  constructor
  · rintro ⟨kv, hmem, hk⟩
    simp only [decide_eq_true_eq] at hk
    exact hk ▸ List.mem_map_of_mem Prod.fst hmem
  · intro h
    obtain ⟨kv, hmem, hk⟩ := List.mem_map.1 h
    exact ⟨kv, hmem, by simpa using hk⟩

theorem setattr_keys_mem (t : List (String × Json)) (k' : String) (v : Json) (k : String) :
    k ∈ (setattr t k' v).map Prod.fst ↔ k ∈ t.map Prod.fst ∨ k = k' := by
  unfold setattr
  by_cases hany : t.any (fun kv => kv.1 = k') = true
  · rw [if_pos hany, map_fst_map_replace]
    constructor
    · exact Or.inl
    · rintro (h | rfl)
      · exact h
      · exact (any_key_iff t k).1 hany
  · rw [if_neg hany]
    simp [List.mem_append]

theorem foldl_setattr_keys :
    ∀ (fields init : List (String × Json)) (k : String),
      k ∈ ((fields.foldl (fun a kv => setattr a kv.1 kv.2) init).map Prod.fst) ↔
        k ∈ init.map Prod.fst ∨ k ∈ fields.map Prod.fst := by
  intro fields
  induction fields with
  | nil => intro init k; simp
  | cons f fs ih =>
    intro init k
    rw [List.foldl_cons, ih, setattr_keys_mem]
    simp only [List.map_cons, List.mem_cons]
    tauto

theorem setattr_keys_nodup (t : List (String × Json)) (k' : String) (v : Json)
    (h : (t.map Prod.fst).Nodup) : ((setattr t k' v).map Prod.fst).Nodup := by
  unfold setattr
  by_cases hany : t.any (fun kv => kv.1 = k') = true
  · rw [if_pos hany, map_fst_map_replace]
    exact h
  · rw [if_neg hany]
    have hk' : k' ∉ t.map Prod.fst := fun hmem => hany ((any_key_iff t k').2 hmem)
    rw [List.map_append, List.nodup_append]
    refine ⟨h, List.nodup_singleton _, fun x hx hxk => ?_⟩
    simp only [List.map_cons, List.map_nil, List.mem_singleton] at hxk
    exact hk' (hxk ▸ hx)

theorem foldl_setattr_keys_nodup :
    ∀ (fields init : List (String × Json)), (init.map Prod.fst).Nodup →
      ((fields.foldl (fun a kv => setattr a kv.1 kv.2) init).map Prod.fst).Nodup := by
  intro fields
  induction fields with
  | nil => intro init h; exact h
  | cons f fs ih =>
    intro init h
    exact ih _ (setattr_keys_nodup init f.1 f.2 h)

theorem lookup_eq_some_of_mem_nodup :
    ∀ {t : List (String × Json)} {k : String} {v : Json},
      (t.map Prod.fst).Nodup → (k, v) ∈ t → t.lookup k = some v := by
  intro t
  induction t with
  | nil => intro k v _ hmem; simp at hmem
  | cons kv t ih =>
    intro k v hnd hmem
    rw [List.map_cons, List.nodup_cons] at hnd
    rcases List.mem_cons.1 hmem with heq | hmem'
    · rw [← heq]
      simp [List.lookup]
    · have hk : (k == kv.1) = false := by
        have : k ∈ t.map Prod.fst := List.mem_map_of_mem Prod.fst hmem' 
        have hne : k ≠ kv.1 := fun hkk => hnd.1 (hkk ▸ this)
        simpa using hne
      simp [List.lookup, hk, ih hnd.2 hmem']

theorem exists_of_mem_keys {t : List (String × Json)} {k : String}
    (h : k ∈ t.map Prod.fst) : ∃ v, (k, v) ∈ t := by
  obtain ⟨kv, hmem, hk⟩ := List.mem_map.1 h
  exact ⟨kv.2, by rwa [show (k, kv.2) = kv from by rw [← hk]] ⟩

/-- Whether a text-codec `Message` value round-trips on the wire: a
registered class name, safe characters in the name and attribute keys,
string-valued safe attributes with distinct keys, and — for
`MsgIdentify`, whose `__init__` guarantees them on every real
instance — the `username`/`hostname` attributes present. -/
def Message.wire_safe (m : Message) : Bool :=
  decide (m.name ∈ Message.class_defs) && jsonSafeString m.name &&
    decide ((m.attrs.map Prod.fst).Nodup) &&
    m.attrs.all (fun kv => jsonSafeString kv.1 && kv.2.strSafe) &&
    (if m.name = "MsgIdentify" then
      decide ("username" ∈ m.attrs.map Prod.fst) && decide ("hostname" ∈ m.attrs.map Prod.fst)
     else true)

theorem newInstance_name (nm du dh : String) : (Message.newInstance nm du dh).name = nm := by
  unfold Message.newInstance
  split <;> rfl

theorem newInstance_keys (nm du dh : String) :
    (Message.newInstance nm du dh).attrs.map Prod.fst
      = if nm = "MsgIdentify" then ["username", "hostname"] else [] := by
  unfold Message.newInstance
  split <;> rfl

theorem decode_attrEq (nm du dh : String) (attrs : List (String × Json))
    (hnd : (attrs.map Prod.fst).Nodup)
    (hid : nm = "MsgIdentify" →
      "username" ∈ attrs.map Prod.fst ∧ "hostname" ∈ attrs.map Prod.fst) :
    attrEq ((Message.newInstance nm du dh).decode_attributes attrs).attrs attrs = true := by
  have hinitnd : ((Message.newInstance nm du dh).attrs.map Prod.fst).Nodup := by
    rw [newInstance_keys]
    split <;> decide
  rw [show ((Message.newInstance nm du dh).decode_attributes attrs).attrs
      = attrs.foldl (fun a kv => setattr a kv.1 kv.2) (Message.newInstance nm du dh).attrs
      from rfl]
  rw [attrEq, Bool.and_eq_true, List.all_eq_true, List.all_eq_true]
  constructor
  · intro kv hkv
    rw [decide_eq_true_eq]
    have hrnd := foldl_setattr_keys_nodup attrs _ hinitnd
    have hrlook : (attrs.foldl (fun a kv => setattr a kv.1 kv.2)
        (Message.newInstance nm du dh).attrs).lookup kv.1 = some kv.2 :=
      lookup_eq_some_of_mem_nodup hrnd hkv
    by_cases hmem : kv.1 ∈ attrs.map Prod.fst
    · obtain ⟨v', hv'⟩ := exists_of_mem_keys hmem
      have h1 : (attrs.foldl (fun a kv => setattr a kv.1 kv.2)
          (Message.newInstance nm du dh).attrs).lookup kv.1 = some v' :=
        foldl_setattr_lookup_mem attrs _ kv.1 v' hnd hv'
      have hv2 : kv.2 = v' := by
        rw [h1] at hrlook
        exact Option.some_injective _ hrlook.symm
      rw [hv2]
      exact lookup_eq_some_of_mem_nodup hnd hv'
    · exfalso
      have hkeys := (foldl_setattr_keys attrs (Message.newInstance nm du dh).attrs kv.1).1
        (List.mem_map_of_mem Prod.fst hkv)
      rcases hkeys with hkeys | hkeys
      · rw [newInstance_keys] at hkeys
        by_cases hident : nm = "MsgIdentify"
        · rw [if_pos hident] at hkeys
          obtain ⟨hu, hh⟩ := hid hident
          rcases List.mem_cons.1 hkeys with heq | hkeys
          · exact hmem (heq ▸ hu)
          · rcases List.mem_cons.1 hkeys with heq | hkeys
            · exact hmem (heq ▸ hh)
            · simp at hkeys
        · rw [if_neg hident] at hkeys
          simp at hkeys
      · exact hmem hkeys
  · intro kv hkv
    rw [decide_eq_true_eq]
    exact foldl_setattr_lookup_mem attrs _ kv.1 kv.2 hnd
      (by rw [show (kv.1, kv.2) = kv from rfl]; exact hkv)

theorem text_roundtrip (du dh : String) (m : Message) (hwf : m.wire_safe = true) :
    Message.peel_from_buffer du dh m.encoded
      = .ok (some ((Message.newInstance m.name du dh).decode_attributes m.attrs),
             m.encoded.length - 1) ∧
    ((Message.newInstance m.name du dh).decode_attributes m.attrs).name = m.name ∧
    attrEq ((Message.newInstance m.name du dh).decode_attributes m.attrs).attrs m.attrs
      = true := by
  simp only [Message.wire_safe, Bool.and_eq_true, decide_eq_true_eq] at hwf
  obtain ⟨⟨⟨⟨hmem, hnm⟩, hnd⟩, hattrs⟩, hid⟩ := hwf
  have hid' : m.name = "MsgIdentify" →
      "username" ∈ m.attrs.map Prod.fst ∧ "hostname" ∈ m.attrs.map Prod.fst := by
    intro hident
    rw [if_pos hident, Bool.and_eq_true, decide_eq_true_eq, decide_eq_true_eq] at hid
    exact hid
  have hprint := dumps_env_printable m.name m.attrs hnm hattrs
  have hchars : ∀ c ∈ Json.dumps (.arr [.str m.name, .obj m.attrs]),
      0x20 ≤ c.toNat ∧ c.toNat ≤ 0x7e := by
    intro c hc
    have := List.all_eq_true.1 hprint c hc
    simp only [printableChar, Bool.and_eq_true, decide_eq_true_eq] at this
    exact this
  have hne10 : ∀ x ∈ (Json.dumps (.arr [.str m.name, .obj m.attrs])).map Char.toNat,
      x ≠ 10 := by
    intro x hx
    obtain ⟨c, hc, rfl⟩ := List.mem_map.1 hx
    have := (hchars c hc).1
    omega
  have hencshape : m.encoded
      = (Json.dumps (.arr [.str m.name, .obj m.attrs])).map Char.toNat ++ [10] := rfl
  have hfind : m.encoded.findIdx? (· = 10)
      = some ((Json.dumps (.arr [.str m.name, .obj m.attrs])).map Char.toNat).length := by
    rw [hencshape]
    exact findIdx?_append_terminator _ hne10
  have htake : m.encoded.take
        ((Json.dumps (.arr [.str m.name, .obj m.attrs])).map Char.toNat).length
      = (Json.dumps (.arr [.str m.name, .obj m.attrs])).map Char.toNat := by
    rw [hencshape]
    exact List.take_left _ _
  have hdecode : decodeUtf8 ((Json.dumps (.arr [.str m.name, .obj m.attrs])).map Char.toNat)
      = some (Json.dumps (.arr [.str m.name, .obj m.attrs])) :=
    decodeUtf8_ascii _ (fun c hc => by have := (hchars c hc).2; omega)
  have hloads : jsonLoads (Json.dumps (.arr [.str m.name, .obj m.attrs]))
      = some (.arr [.str m.name, .obj m.attrs]) := by
    unfold jsonLoads
    have hlen := dumps_env_length m.name m.attrs
    obtain ⟨L, hL⟩ : ∃ L, (Json.dumps (.arr [.str m.name, .obj m.attrs])).length = L :=
      ⟨_, rfl⟩
    rw [hL]
    have henv := parseVal_envelope m.name m.attrs L
      ([] : List Char) (by omega) hnm hattrs
    rw [List.append_nil] at henv
    rw [henv]
    rfl
  refine ⟨?_, newInstance_name m.name du dh, decode_attrEq m.name du dh m.attrs hnd hid'⟩
  simp only [Message.peel_from_buffer, hfind, htake, hdecode]
  rw [show ((some (Json.dumps (.arr [.str m.name, .obj m.attrs]))).bind fun a => jsonLoads a)
      = jsonLoads (Json.dumps (.arr [.str m.name, .obj m.attrs])) from rfl]
  rw [hloads]
  dsimp only
  rw [if_pos hmem]
  rw [hencshape]
  simp [List.length_append, List.length_map]

/-- C2: round-trip.  For a wire-safe byte-codec message, extraction of
its encoding returns an equal message with the whole encoding length
consumed; for a wire-safe text-codec message, extraction of its
encoding consumes `len(encoding) - 1` bytes (the terminator excluded)
and returns an instance of the same class whose attributes are
dict-equal to the original's. -/
theorem claim_C2_roundtrip (du dh : String) (bm : Byte_Message) (tm : Message)
    (bbuf : List Nat) (hbwf : bm.wire_safe = true) (htwf : tm.wire_safe = true)
    (he : bm.encoded = .ok bbuf) :
    Byte_Message.peel_from_buffer du dh bbuf = .ok (some bm, bbuf.length) ∧
      Message.peel_from_buffer du dh tm.encoded
        = .ok (some ((Message.newInstance tm.name du dh).decode_attributes tm.attrs),
               tm.encoded.length - 1) ∧
      ((Message.newInstance tm.name du dh).decode_attributes tm.attrs).name = tm.name ∧
      attrEq ((Message.newInstance tm.name du dh).decode_attributes tm.attrs).attrs tm.attrs
        = true :=
  ⟨byte_roundtrip du dh bm bbuf hbwf he, text_roundtrip du dh tm htwf⟩

/-- C2 witness: `Identify("alice", "box")` on the byte codec and
`MsgIdentify(username="alice", hostname="box")` on the text codec. -/
theorem claim_C2_roundtrip_witness :
    Byte_Message.peel_from_buffer "du" "dh" [11, 1, 97, 108, 105, 99, 101, 64, 98, 111, 120]
        = .ok (some (.identify "alice" "box"), 11) ∧
      Message.peel_from_buffer "du" "dh"
          (Message.encoded ⟨"MsgIdentify", [("username", .str "alice"), ("hostname", .str "box")]⟩)
        = .ok (some ((Message.newInstance "MsgIdentify" "du" "dh").decode_attributes
            [("username", .str "alice"), ("hostname", .str "box")]),
          (Message.encoded ⟨"MsgIdentify",
            [("username", .str "alice"), ("hostname", .str "box")]⟩).length - 1) ∧
      ((Message.newInstance "MsgIdentify" "du" "dh").decode_attributes
          [("username", .str "alice"), ("hostname", .str "box")]).name = "MsgIdentify" ∧
      attrEq ((Message.newInstance "MsgIdentify" "du" "dh").decode_attributes
          [("username", .str "alice"), ("hostname", .str "box")]).attrs
        [("username", .str "alice"), ("hostname", .str "box")] = true := by
  have h := claim_C2_roundtrip "du" "dh" (.identify "alice" "box")
    ⟨"MsgIdentify", [("username", .str "alice"), ("hostname", .str "box")]⟩
    [11, 1, 97, 108, 105, 99, 101, 64, 98, 111, 120]
    (by decide) (by decide) (by decide)
  exact ⟨h.1, h.2.1, h.2.2.1, h.2.2.2⟩
